import Mathlib

/-
Verification development for the `spiral` generative-art program (`src/main.rs`).

Modelling conventions for the shallow embedding:
- `f32` values and arithmetic are idealized as exact rational arithmetic (`ℚ`).
- `std::time::Duration` / `Instant` arithmetic is exact integer nanosecond
  arithmetic in Rust; `Instant`s are modelled as nanoseconds elapsed since
  `MyGame.start`, so `start = 0`.  `Duration::from_nanos(1_000_000_000 / 60)`
  truncates: the tick is exactly 16_666_666 ns.
- the transcendental `f32` operations (`sin`, `cos`, `sqrt`) have no exact
  rational counterpart; the embedding is parametric in functions
  `sinf cosf sqrtf : ℚ → ℚ` standing for them.
- `std::f32::consts::PI` is a concrete `f32` constant whose exact value is
  13176795 / 4194304; the embedding uses that exact rational.
- the `VecDeque<Star>` is modelled as a `List Star'` whose head is the front
  (oldest element); `push_back` appends, `pop_front` drops the head.
- drawing primitives issued through `ggez` are reified as a `List Prim`
  returned by the rendering functions (line width, caps and the circle mesh
  radius are fixed constants in the source and are not modelled).
-/

-- Constants from the top of src/main.rs.

def TARGET_FPS : ℕ := 60

def TICK_SCALE : ℚ := 1 / 60

-- Duration::from_nanos(1_000_000_000 / 60): integer division, 16_666_666 ns.
def TICK_DURATION_NS : ℕ := 1000000000 / 60

-- STAR_DELAY = Duration::from_millis(100).
def STAR_DELAY_NS : ℕ := 100000000

def STAR_SPEED : ℚ := 10

def STAR_ACCEL : ℚ := 1

def STAR_TIME_COLOR_SCALE : ℚ := -3

def ANGLE_ACCEL : ℚ := 1 / 100

def R_SCALE : ℚ := 2 / 10

def G_SCALE : ℚ := 3 / 10

def B_SCALE : ℚ := 5 / 10

def MAX_SEGMENT_LEN : ℚ := 5

def MOUSE_SCALE : ℚ := 5

-- Exact rational value of the f32 constant std::f32::consts::PI.
def PI32 : ℚ := 13176795 / 4194304

-- 2D points/vectors (nalgebra Point2<f32> / Vector2<f32>).

structure Vec2 where
  x : ℚ
  y : ℚ
deriving DecidableEq

def Vec2.add (a b : Vec2) : Vec2 := ⟨a.x + b.x, a.y + b.y⟩

def Vec2.sub (a b : Vec2) : Vec2 := ⟨a.x - b.x, a.y - b.y⟩

def Vec2.scale (v : Vec2) (c : ℚ) : Vec2 := ⟨v.x * c, v.y * c⟩

def Vec2.divQ (v : Vec2) (c : ℚ) : Vec2 := ⟨v.x / c, v.y / c⟩

-- ggez graphics::Rect and its `contains` (closed rectangle test).

structure Rect where
  x : ℚ
  y : ℚ
  w : ℚ
  h : ℚ
deriving DecidableEq

def Rect.contains (r : Rect) (p : Vec2) : Bool :=
  decide (r.x ≤ p.x) && decide (p.x ≤ r.x + r.w) &&
  decide (p.y ≤ r.y + r.h) && decide (r.y ≤ p.y)

-- ggez graphics::Color.

structure Color where
  r : ℚ
  g : ℚ
  b : ℚ
  a : ℚ
deriving DecidableEq

-- The secondary-nearest connector color Color { r: 0.3, g: 0.3, b: 0.3, a: 1.0 }.
def grayColor : Color := ⟨3/10, 3/10, 3/10, 1⟩

/-- Model of the Rust `Star` struct (named `Star'` here because Mathlib already declares `Star`).  The field `spawnNs` is ghost
instrumentation recording the simulated timestamp (ns since start) at which
the star was spawned; it is not a field of the source struct and is read by
no modelled operation — it exists only so that the spawn-order sorting
invariant can be stated. -/
structure Star' where
  pos : Vec2
  delta : Vec2
  seed : ℚ
  spawnNs : ℕ
deriving DecidableEq

/-- Star::spawn: position at the origin, velocity (cos angle, sin angle) * STAR_SPEED,
seed = current simulated time in seconds. -/
def Star'.spawn (cosf sinf : ℚ → ℚ) (angle : ℚ) (now : ℚ) (nowNs : ℕ) : Star' :=
  { pos := ⟨0, 0⟩
    delta := (Vec2.mk (cosf angle) (sinf angle)).scale STAR_SPEED
    seed := now
    spawnNs := nowNs }

/-- Star::color: three independently scaled sine channels of (seed + scaled time). -/
def Star'.color (sinf : ℚ → ℚ) (s : Star') (now : ℚ) : Color :=
  let scaledNow := now * STAR_TIME_COLOR_SCALE
  { r := 1/2 + 1/2 * sinf ((s.seed + scaledNow) * R_SCALE)
    g := 1/2 + 1/2 * sinf ((s.seed + scaledNow) * G_SCALE)
    b := 1/2 + 1/2 * sinf ((s.seed + scaledNow) * B_SCALE)
    a := 1 }

/-- Star::distance_sqr_to. -/
def Star'.distanceSqrTo (s o : Star') : ℚ :=
  (o.pos.x - s.pos.x)^2 + (o.pos.y - s.pos.y)^2

/-- Star::tick: pos += delta * TICK_SCALE; delta *= STAR_ACCEL. -/
def Star'.tick (s : Star') : Star' :=
  { s with pos := s.pos.add (s.delta.scale TICK_SCALE)
           delta := s.delta.scale STAR_ACCEL }

inductive DrawMode where
  | Points
  | Lines
deriving DecidableEq

/-- Model of the `MyGame` struct.  `now` and `last_star` are `Instant`s
modelled as nanoseconds since `start`; the `star_mesh` graphics handle is not
modelled.  The field `spawned` is ghost instrumentation counting the
`push_back` calls made by `tick`, so that the spawn-cadence property can be
stated; no modelled operation reads it. -/
structure MyGame where
  angle : ℚ
  angle_delta : ℚ
  stars : List Star'
  last_star : ℕ
  now : ℕ
  running : Bool
  draw_mode : DrawMode
  primary_nearest : Bool
  secondary_nearest : Bool
  mouse : Option Vec2
  spawned : ℕ
deriving DecidableEq

/-- MyGame::now_f32: seconds since start, as an exact rational. -/
def MyGame.nowF (g : MyGame) : ℚ := (g.now : ℚ) / 1000000000

/-- The wraparound used on `angle` and `angle_delta`:
`if x > 2.0*PI { x -= 2.0*PI }` — note the strict comparison. -/
def wrap2Pi (x : ℚ) : ℚ := if 2 * PI32 < x then x - 2 * PI32 else x

/-- The star list after the spawn step of MyGame::tick: when at least
STAR_DELAY has elapsed since `last_star` (measured on the already advanced
clock), one star is appended at the back. -/
def MyGame.postSpawn (cosf sinf : ℚ → ℚ) (g : MyGame) : List Star' :=
  let nowN := g.now + TICK_DURATION_NS
  if g.last_star + STAR_DELAY_NS ≤ nowN then
    g.stars ++ [Star'.spawn cosf sinf g.angle ((nowN : ℚ) / 1000000000) nowN]
  else
    g.stars

/-- The star list after the eviction step of MyGame::tick: pop from the front
while the front star's position is outside the screen rectangle.  Eviction
happens before the per-tick position update. -/
def MyGame.postEvict (cosf sinf : ℚ → ℚ) (r : Rect) (g : MyGame) : List Star' :=
  (g.postSpawn cosf sinf).dropWhile (fun s => ! r.contains s.pos)

/-- MyGame::tick: advance the clock by one tick, spawn, evict, move every
star, advance angle and angular velocity with wraparound, and, when the mouse
attractor is held, perturb every star's seed by MOUSE_SCALE divided by its
distance to the attractor. -/
def MyGame.tick (cosf sinf sqrtf : ℚ → ℚ) (r : Rect) (g : MyGame) : MyGame :=
  let nowN := g.now + TICK_DURATION_NS
  let spawnNow : Bool := decide (g.last_star + STAR_DELAY_NS ≤ nowN)
  let moved := (g.postEvict cosf sinf r).map Star'.tick
  let finalStars :=
    match g.mouse with
    | none => moved
    | some mp =>
        moved.map (fun s =>
          { s with seed :=
              s.seed + MOUSE_SCALE / sqrtf ((mp.x - s.pos.x)^2 + (mp.y - s.pos.y)^2) })
  { g with
    now := nowN
    last_star := if spawnNow then nowN else g.last_star
    spawned := if spawnNow then g.spawned + 1 else g.spawned
    stars := finalStars
    angle := wrap2Pi (g.angle + g.angle_delta)
    angle_delta := wrap2Pi (g.angle_delta + ANGLE_ACCEL * TICK_SCALE) }

/-- k successive calls of MyGame::tick against a fixed screen rectangle. -/
def MyGame.ticks (cosf sinf sqrtf : ℚ → ℚ) (r : Rect) : ℕ → MyGame → MyGame
  | 0, g => g
  | k + 1, g => MyGame.tick cosf sinf sqrtf r (MyGame.ticks cosf sinf sqrtf r k g)

/-- MyGame::new: `Instant::now()` is the common origin of `start`, `now` and
`last_star`, so all three are 0 ns. -/
def initGame : MyGame :=
  { angle := 0
    angle_delta := 0
    stars := []
    last_star := 0
    now := 0
    running := true
    draw_mode := DrawMode.Lines
    primary_nearest := true
    secondary_nearest := false
    mouse := none
    spawned := 0 }

-- Rendering model: draw calls are reified as a list of primitives.

inductive Prim where
  | line (p1 p2 : Vec2) (c : Color)
  | circle (center : Vec2) (c : Color)
deriving DecidableEq

/-- One step of the running color in draw_interp_line's loop: each RGB channel
advances by the per-segment delta and alpha is reset to 1.0. -/
def stepColor (c d : Color) : Color := ⟨c.r + d.r, c.g + d.g, c.b + d.b, 1⟩

/-- The emission loop of draw_interp_line: `k` segments, each from the running
position to position + delta with the running color, then advance both. -/
def interpSegs (dp : Vec2) (dc : Color) : ℕ → Vec2 → Color → List Prim
  | 0, _, _ => []
  | k + 1, pos, color =>
      Prim.line pos (pos.add dp) color :: interpSegs dp dc k (pos.add dp) (stepColor color dc)

/-- The segment count of draw_interp_line: segments_f32 =
ceil(|B.pos - A.pos| / MAX_SEGMENT_LEN), with |.| = sqrt of the squared norm. -/
def interpCount (sqrtf : ℚ → ℚ) (star nearest : Star') : ℤ :=
  ⌈sqrtf (((nearest.pos.sub star.pos).x) ^ 2 + ((nearest.pos.sub star.pos).y) ^ 2) /
    MAX_SEGMENT_LEN⌉

/-- pos_delta = pos_vec / segments_f32. -/
def interpPosDelta (sqrtf : ℚ → ℚ) (star nearest : Star') : Vec2 :=
  (nearest.pos.sub star.pos).divQ ((interpCount sqrtf star nearest : ℤ) : ℚ)

/-- color_delta: per-channel (nearest.color - star.color) / segments_f32, with
both endpoint colors evaluated at the current simulated time; alpha is 1.0. -/
def interpColorDelta (sqrtf sinf : ℚ → ℚ) (star nearest : Star') (nowQ : ℚ) : Color :=
  ⟨((nearest.color sinf nowQ).r - (star.color sinf nowQ).r) /
      ((interpCount sqrtf star nearest : ℤ) : ℚ),
   ((nearest.color sinf nowQ).g - (star.color sinf nowQ).g) /
      ((interpCount sqrtf star nearest : ℤ) : ℚ),
   ((nearest.color sinf nowQ).b - (star.color sinf nowQ).b) /
      ((interpCount sqrtf star nearest : ℤ) : ℚ), 1⟩

/-- draw_interp_line: the `for _ in 0..segments` loop run `segments` times
(the `as i32` cast of the float count: for a nonnegative count `Int.toNat` is
exact, and for a negative count both the cast-to-negative-i32 loop and
`Int.toNat = 0` run the body zero times), starting at star.pos with the
star's current color. -/
def drawInterpLine (sqrtf sinf : ℚ → ℚ) (star nearest : Star') (nowQ : ℚ) : List Prim :=
  interpSegs (interpPosDelta sqrtf star nearest)
    (interpColorDelta sqrtf sinf star nearest nowQ)
    (interpCount sqrtf star nearest).toNat star.pos (star.color sinf nowQ)

/-- The comparison key of the others.sort_by call in draw_nearest_line:
ascending squared distance to `star`. -/
def starDistLe (star a b : Star') : Prop :=
  star.distanceSqrTo a ≤ star.distanceSqrTo b

instance (star : Star') : DecidableRel (starDistLe star) := fun a b =>
  inferInstanceAs (Decidable (star.distanceSqrTo a ≤ star.distanceSqrTo b))

/-- The sorted candidate list built by draw_nearest_line: all later-spawned
stars, stably sorted by ascending squared distance.  (The source uses the
standard library's stable sort; with a total key both stable sorts compute
the same list, so it is modelled by stable insertion sort.) -/
def nearestSortedList (star : Star') (others : List Star') : List Star' :=
  List.insertionSort (starDistLe star) others

/-- MyGame::draw_nearest_line for the star at index `ix`: the gray secondary
connector (when toggled on and a second candidate exists), then the
color-interpolated primary connector (when toggled on and a candidate exists). -/
def MyGame.drawNearestLine (sqrtf sinf : ℚ → ℚ) (g : MyGame) (star : Star') (ix : ℕ) :
    List Prim :=
  let sorted := nearestSortedList star (g.stars.drop (ix + 1))
  (match g.secondary_nearest, sorted[1]? with
   | true, some o2 => [Prim.line star.pos o2.pos grayColor]
   | _, _ => []) ++
  (match g.primary_nearest, sorted[0]? with
   | true, some o1 => drawInterpLine sqrtf sinf star o1 g.nowF
   | _, _ => [])

/-- MyGame::draw_field: in Points mode one filled circle per star; in Lines
mode, for every star except the last (`ix >= len - 1` is skipped), the
nearest-line primitives. -/
def MyGame.drawField (sqrtf sinf : ℚ → ℚ) (g : MyGame) : List Prim :=
  match g.draw_mode with
  | DrawMode.Points => g.stars.map (fun s => Prim.circle s.pos (s.color sinf g.nowF))
  | DrawMode.Lines =>
      (g.stars.enum.map (fun p =>
        if g.stars.length ≤ p.1 + 1 then []
        else g.drawNearestLine sqrtf sinf p.2 p.1)).flatten

-- Spec-side selection functions (following the words of the specification,
-- to be compared with the code's sorted-list selection).

/-- Spec-side definition: the first element of `l` attaining the minimum of
the key `k` — "select the minimum ... ties broken by comparison order,
first-found wins". -/
def firstMinBy {α : Type} (k : α → ℚ) : List α → Option α
  | [] => none
  | a :: l =>
      match firstMinBy k l with
      | none => some a
      | some m => if k m < k a then some m else some a

/-- Spec-side definition: `l` with its first minimum removed; the second
minimum of `l` is the first minimum of what remains. -/
def eraseFirstMinBy {α : Type} (k : α → ℚ) : List α → List α
  | [] => []
  | a :: l =>
      match firstMinBy k l with
      | none => []
      | some m => if k m < k a then a :: eraseFirstMinBy k l else l

-- Refined model for the NaN-sensitivity of the sort in draw_nearest_line.
-- Here f32 coordinate values are modelled as either NaN or a finite rational;
-- `partial_cmp` on two NaN-free values is `some` of their order and `none`
-- otherwise, and `sort_by` with the panicking `.unwrap()` comparator is an
-- `Option`-valued stable insertion sort in which any `none` comparison
-- aborts the whole sort (one comparator invocation panicking aborts the
-- sort in the source as well).

inductive EF where
  | nan
  | fin (q : ℚ)
deriving DecidableEq

def EF.sub : EF → EF → EF
  | EF.fin a, EF.fin b => EF.fin (a - b)
  | _, _ => EF.nan

def EF.add : EF → EF → EF
  | EF.fin a, EF.fin b => EF.fin (a + b)
  | _, _ => EF.nan

/-- powi(2) on a possibly-NaN value. -/
def EF.sq : EF → EF
  | EF.fin a => EF.fin (a ^ 2)
  | EF.nan => EF.nan

/-- f32::partial_cmp: defined exactly when neither operand is NaN. -/
def EF.pcmpOrd : EF → EF → Option Ordering
  | EF.fin a, EF.fin b => some (compare a b)
  | _, _ => none

/-- A star as seen by the NaN-refined model: just its position coordinates
(the only fields distance_sqr_to reads). -/
structure Star10 where
  px : EF
  py : EF
deriving DecidableEq

def Star10.isFinite (s : Star10) : Bool :=
  match s.px, s.py with
  | EF.fin _, EF.fin _ => true
  | _, _ => false

/-- Star::distance_sqr_to with NaN propagation. -/
def Star10.dSqr (s o : Star10) : EF :=
  ((o.px.sub s.px).sq).add ((o.py.sub s.py).sq)

/-- The comparator passed to sort_by: star.distance_sqr_to(a).partial_cmp(
star.distance_sqr_to(b)); `none` means the `.unwrap()` panics. -/
def cmp10 (star a b : Star10) : Option Ordering :=
  EF.pcmpOrd (star.dSqr a) (star.dSqr b)

/-- Ordered insertion in the Option monad: a `none` comparison aborts. -/
def insertOpt {α : Type} (cmp : α → α → Option Ordering) (a : α) :
    List α → Option (List α)
  | [] => some [a]
  | b :: l =>
      match cmp a b with
      | none => none
      | some Ordering.gt => (insertOpt cmp a l).map (fun m => b :: m)
      | some _ => some (a :: b :: l)

/-- Stable insertion sort in the Option monad: model of `sort_by` with a
comparator whose `.unwrap()` can panic. -/
def sortOpt {α : Type} (cmp : α → α → Option Ordering) : List α → Option (List α)
  | [] => some []
  | a :: l => (sortOpt cmp l).bind (insertOpt cmp a)

/-- The neighbor selection of draw_nearest_line in the NaN-refined model:
sort the later-spawned stars, then pick the secondary (index 1) and primary
(index 0) endpoints.  The emitted pairs (source star, selected neighbor)
stand for the connector primitives. -/
def nearestSel10 (primary secondary : Bool) (star : Star10) (others : List Star10) :
    Option (List (Star10 × Star10)) :=
  (sortOpt (cmp10 star) others).map (fun sorted =>
    (match secondary, sorted[1]? with
     | true, some o2 => [(star, o2)]
     | _, _ => []) ++
    (match primary, sorted[0]? with
     | true, some o1 => [(star, o1)]
     | _, _ => []))

def lineRenderAux (primary secondary : Bool) (stars : List Star10) :
    List (ℕ × Star10) → Option (List (Star10 × Star10))
  | [] => some []
  | (ix, s) :: rest =>
      if stars.length ≤ ix + 1 then lineRenderAux primary secondary stars rest
      else
        (nearestSel10 primary secondary s (stars.drop (ix + 1))).bind (fun xs =>
          (lineRenderAux primary secondary stars rest).map (fun ys => xs ++ ys))

/-- Line-mode rendering in the NaN-refined model: `none` means the render
pass panics in the sort's `.unwrap()`. -/
def lineRender10 (primary secondary : Bool) (stars : List Star10) :
    Option (List (Star10 × Star10)) :=
  lineRenderAux primary secondary stars stars.enum

-- Small general-purpose lemmas.

theorem Vec2.eq_of_xy {a b : Vec2} (hx : a.x = b.x) (hy : a.y = b.y) : a = b := by
  cases a; cases b; simp_all

theorem Color.eq_of_rgba {a b : Color} (hr : a.r = b.r) (hg : a.g = b.g) (hb : a.b = b.b)
    (ha : a.a = b.a) : a = b := by
  cases a; cases b; simp_all

theorem head?_dropWhile_not {α : Type} (p : α → Bool) :
    ∀ (l : List α) (a : α), (l.dropWhile p).head? = some a → p a = false := by
  intro l
  induction l with
  | nil => intro a h; simp [List.dropWhile] at h
  | cons x t ih =>
      intro a h
      rw [List.dropWhile_cons] at h
      by_cases hx : p x = true
      · rw [if_pos hx] at h; exact ih a h
      · rw [if_neg hx] at h
        simp only [List.head?_cons, Option.some.injEq] at h
        rw [← h]
        exact Bool.eq_false_iff.mpr hx

-- Correspondence between stable insertion sort on the squared-distance key
-- and the spec-side first-minimum selection.

theorem firstMinBy_eq_none {α : Type} (k : α → ℚ) (l : List α) :
    firstMinBy k l = none ↔ l = [] := by
  cases l with
  | nil => simp [firstMinBy]
  | cons a t =>
      simp only [firstMinBy]
      cases firstMinBy k t with
      | none => simp
      | some m =>
          constructor
          · intro h
            by_cases hc : k m < k a <;> simp [hc] at h
          · intro h; exact absurd h (List.cons_ne_nil a t)

theorem firstMinBy_mem {α : Type} (k : α → ℚ) :
    ∀ (l : List α) (m : α), firstMinBy k l = some m → m ∈ l := by
  intro l
  induction l with
  | nil => intro m h; simp [firstMinBy] at h
  | cons a t ih =>
      intro m h
      simp only [firstMinBy] at h
      cases hf : firstMinBy k t with
      | none =>
          rw [hf] at h
          have h' : some a = some m := h
          simp only [Option.some.injEq] at h'
          rw [← h']
          exact List.mem_cons_self a t
      | some m' =>
          rw [hf] at h
          have h' : (if k m' < k a then some m' else some a) = some m := h
          by_cases hc : k m' < k a
          · rw [if_pos hc] at h'
            simp only [Option.some.injEq] at h'
            rw [← h']
            exact List.mem_cons_of_mem a (ih m' hf)
          · rw [if_neg hc] at h'
            simp only [Option.some.injEq] at h'
            rw [← h']
            exact List.mem_cons_self a t

theorem firstMinBy_le {α : Type} (k : α → ℚ) :
    ∀ (l : List α) (m : α), firstMinBy k l = some m → ∀ x ∈ l, k m ≤ k x := by
  intro l
  induction l with
  | nil => intro m h; simp [firstMinBy] at h
  | cons a t ih =>
      intro m h x hx
      simp only [firstMinBy] at h
      cases hf : firstMinBy k t with
      | none =>
          have ht : t = [] := (firstMinBy_eq_none k t).mp hf
          rw [hf] at h
          have h' : some a = some m := h
          simp only [Option.some.injEq] at h'
          subst ht
          rcases List.mem_singleton.mp hx with rfl
          rw [← h']
      | some m' =>
          rw [hf] at h
          have h' : (if k m' < k a then some m' else some a) = some m := h
          by_cases hc : k m' < k a
          · rw [if_pos hc] at h'
            simp only [Option.some.injEq] at h'
            rw [← h']
            rcases List.mem_cons.mp hx with hxa | hxt
            · rw [hxa]; exact le_of_lt hc
            · exact ih m' hf x hxt
          · rw [if_neg hc] at h'
            simp only [Option.some.injEq] at h'
            rw [← h']
            rcases List.mem_cons.mp hx with hxa | hxt
            · rw [hxa]
            · exact le_trans (not_lt.mp hc) (ih m' hf x hxt)

theorem nearestSortedList_head? (star : Star') :
    ∀ l : List Star',
      (nearestSortedList star l).head? = firstMinBy star.distanceSqrTo l := by
  intro l
  induction l with
  | nil => rfl
  | cons a t ih =>
      show (List.orderedInsert (starDistLe star) a
              (List.insertionSort (starDistLe star) t)).head? = _
      cases hst : List.insertionSort (starDistLe star) t with
      | nil =>
          have ht : t = [] := by
            have hp := List.perm_insertionSort (starDistLe star) t
            rw [hst] at hp
            exact (List.perm_nil.mp hp.symm)
          subst ht
          rfl
      | cons b s' =>
          have hfm : firstMinBy star.distanceSqrTo t = some b := by
            rw [← ih]
            unfold nearestSortedList
            rw [hst]
            rfl
          simp only [firstMinBy]
          rw [hfm]
          by_cases hab : starDistLe star a b
          · rw [List.orderedInsert, if_pos hab]
            have hno : ¬ star.distanceSqrTo b < star.distanceSqrTo a := not_lt.mpr hab
            show some a = if star.distanceSqrTo b < star.distanceSqrTo a then some b else some a
            rw [if_neg hno]
          · rw [List.orderedInsert, if_neg hab]
            have hlt : star.distanceSqrTo b < star.distanceSqrTo a :=
              lt_of_not_le hab
            show some b = if star.distanceSqrTo b < star.distanceSqrTo a then some b else some a
            rw [if_pos hlt]

theorem nearestSortedList_tail (star : Star') :
    ∀ l : List Star',
      (nearestSortedList star l).tail =
        nearestSortedList star (eraseFirstMinBy star.distanceSqrTo l) := by
  intro l
  induction l with
  | nil => rfl
  | cons a t ih =>
      show (List.orderedInsert (starDistLe star) a
              (List.insertionSort (starDistLe star) t)).tail = _
      cases hst : List.insertionSort (starDistLe star) t with
      | nil =>
          have ht : t = [] := by
            have hp := List.perm_insertionSort (starDistLe star) t
            rw [hst] at hp
            exact (List.perm_nil.mp hp.symm)
          subst ht
          rfl
      | cons b s' =>
          have hfm : firstMinBy star.distanceSqrTo t = some b := by
            rw [← nearestSortedList_head? star t]
            unfold nearestSortedList
            rw [hst]
            rfl
          have herase :
              eraseFirstMinBy star.distanceSqrTo (a :: t) =
                (if star.distanceSqrTo b < star.distanceSqrTo a then
                   a :: eraseFirstMinBy star.distanceSqrTo t
                 else t) := by
            simp only [eraseFirstMinBy, hfm]
          rw [herase]
          by_cases hab : starDistLe star a b
          · have hno : ¬ star.distanceSqrTo b < star.distanceSqrTo a := not_lt.mpr hab
            rw [List.orderedInsert, if_pos hab]
            show b :: s' = nearestSortedList star
              (if star.distanceSqrTo b < star.distanceSqrTo a then
                 a :: eraseFirstMinBy star.distanceSqrTo t
               else t)
            rw [if_neg hno]
            unfold nearestSortedList
            rw [hst]
          · have hlt : star.distanceSqrTo b < star.distanceSqrTo a := lt_of_not_le hab
            rw [List.orderedInsert, if_neg hab]
            show List.orderedInsert (starDistLe star) a s' = nearestSortedList star
              (if star.distanceSqrTo b < star.distanceSqrTo a then
                 a :: eraseFirstMinBy star.distanceSqrTo t
               else t)
            rw [if_pos hlt]
            show _ = List.orderedInsert (starDistLe star) a
              (List.insertionSort (starDistLe star) (eraseFirstMinBy star.distanceSqrTo t))
            have ihs : List.insertionSort (starDistLe star)
                (eraseFirstMinBy star.distanceSqrTo t) = s' := by
              have := ih
              unfold nearestSortedList at this
              rw [hst] at this
              exact this.symm
            rw [ihs]

-- Closed form of the draw_interp_line emission loop.

theorem interpSegs_length (dp : Vec2) (dc : Color) :
    ∀ (k : ℕ) (p : Vec2) (c : Color), (interpSegs dp dc k p c).length = k := by
  intro k
  induction k with
  | zero => intro p c; rfl
  | succ k ih => intro p c; simp [interpSegs, ih]

theorem interpSegs_getElem? (dp : Vec2) (dc : Color) :
    ∀ (k : ℕ) (p : Vec2) (c : Color), c.a = 1 → ∀ i : ℕ, i < k →
      (interpSegs dp dc k p c)[i]? =
        some (Prim.line (p.add (dp.scale (i : ℚ)))
                        (p.add (dp.scale ((i : ℚ) + 1)))
                        ⟨c.r + (i : ℚ) * dc.r, c.g + (i : ℚ) * dc.g,
                         c.b + (i : ℚ) * dc.b, 1⟩) := by
  intro k
  induction k with
  | zero => intro p c hca i hi; exact absurd hi (Nat.not_lt_zero i)
  | succ k ih =>
      intro p c hca i hi
      cases i with
      | zero =>
          show (Prim.line p (p.add dp) c ::
                  interpSegs dp dc k (p.add dp) (stepColor c dc))[0]? = _
          rw [List.getElem?_cons_zero]
          have hc : c = ⟨c.r, c.g, c.b, 1⟩ := Color.eq_of_rgba rfl rfl rfl hca
          congr 1
          rw [hc]
          congr 1 <;> first
            | exact (Vec2.eq_of_xy (by simp [Vec2.add, Vec2.scale]) (by simp [Vec2.add, Vec2.scale]))
            | exact (Color.eq_of_rgba (by simp) (by simp) (by simp) (by simp))
      | succ j =>
          show (Prim.line p (p.add dp) c ::
                  interpSegs dp dc k (p.add dp) (stepColor c dc))[j + 1]? = _
          rw [List.getElem?_cons_succ]
          rw [ih (p.add dp) (stepColor c dc) rfl j (by omega)]
          congr 1
          congr 1
          · exact Vec2.eq_of_xy (by simp [Vec2.add, Vec2.scale]; ring)
              (by simp [Vec2.add, Vec2.scale]; ring)
          · exact Vec2.eq_of_xy (by simp [Vec2.add, Vec2.scale]; ring)
              (by simp [Vec2.add, Vec2.scale]; ring)
          · exact Color.eq_of_rgba (by simp [stepColor]; ring)
              (by simp [stepColor]; ring)
              (by simp [stepColor]; ring) rfl

-- Lemmas about the Option-valued (panicking-comparator) sort.

theorem insertOpt_isSome {α : Type} (cmp : α → α → Option Ordering) (a : α) :
    ∀ l : List α, (∀ b ∈ l, cmp a b ≠ none) → ∃ m, insertOpt cmp a l = some m := by
  intro l
  induction l with
  | nil => intro _; exact ⟨[a], rfl⟩
  | cons b t ih =>
      intro h
      have hb : cmp a b ≠ none := h b (List.mem_cons_self b t)
      cases hab : cmp a b with
      | none => exact absurd hab hb
      | some o =>
          cases o with
          | gt =>
              rcases ih (fun x hx => h x (List.mem_cons_of_mem b hx)) with ⟨m, hm⟩
              exact ⟨b :: m, by simp [insertOpt, hab, hm]⟩
          | lt => exact ⟨a :: b :: t, by simp [insertOpt, hab]⟩
          | eq => exact ⟨a :: b :: t, by simp [insertOpt, hab]⟩

theorem insertOpt_mem {α : Type} (cmp : α → α → Option Ordering) (a : α) :
    ∀ (l m : List α), insertOpt cmp a l = some m → ∀ x ∈ m, x = a ∨ x ∈ l := by
  intro l
  induction l with
  | nil =>
      intro m hm x hx
      simp only [insertOpt, Option.some.injEq] at hm
      rw [← hm] at hx
      rcases List.mem_singleton.mp hx with rfl
      exact Or.inl rfl
  | cons b t ih =>
      intro m hm x hx
      simp only [insertOpt] at hm
      cases hab : cmp a b with
      | none => rw [hab] at hm; simp at hm
      | some o =>
          rw [hab] at hm
          cases o with
          | gt =>
              simp only [Option.map_eq_some'] at hm
              rcases hm with ⟨m', hm', rfl⟩
              rcases List.mem_cons.mp hx with hxb | hxm
              · rw [hxb]; exact Or.inr (List.mem_cons_self b t)
              · rcases ih m' hm' x hxm with h1 | h2
                · exact Or.inl h1
                · exact Or.inr (List.mem_cons_of_mem b h2)
          | lt =>
              simp only [Option.some.injEq] at hm
              rw [← hm] at hx
              rcases List.mem_cons.mp hx with rfl | hx2
              · exact Or.inl rfl
              · exact Or.inr hx2
          | eq =>
              simp only [Option.some.injEq] at hm
              rw [← hm] at hx
              rcases List.mem_cons.mp hx with rfl | hx2
              · exact Or.inl rfl
              · exact Or.inr hx2

theorem insertOpt_length {α : Type} (cmp : α → α → Option Ordering) (a : α) :
    ∀ (l m : List α), insertOpt cmp a l = some m → m.length = l.length + 1 := by
  intro l
  induction l with
  | nil =>
      intro m hm
      simp only [insertOpt, Option.some.injEq] at hm
      rw [← hm]; rfl
  | cons b t ih =>
      intro m hm
      simp only [insertOpt] at hm
      cases hab : cmp a b with
      | none => rw [hab] at hm; simp at hm
      | some o =>
          rw [hab] at hm
          cases o with
          | gt =>
              simp only [Option.map_eq_some'] at hm
              rcases hm with ⟨m', hm', rfl⟩
              simp [ih m' hm']
          | lt => simp only [Option.some.injEq] at hm; rw [← hm]; simp
          | eq => simp only [Option.some.injEq] at hm; rw [← hm]; simp

theorem sortOpt_mem {α : Type} (cmp : α → α → Option Ordering) :
    ∀ (l m : List α), sortOpt cmp l = some m → ∀ x ∈ m, x ∈ l := by
  intro l
  induction l with
  | nil =>
      intro m hm x hx
      simp only [sortOpt, Option.some.injEq] at hm
      rw [← hm] at hx
      simp at hx
  | cons a t ih =>
      intro m hm x hx
      simp only [sortOpt] at hm
      rcases Option.bind_eq_some.mp hm with ⟨m', hm', hins⟩
      rcases insertOpt_mem cmp a m' m hins x hx with hxa | hx2
      · rw [hxa]; exact List.mem_cons_self a t
      · exact List.mem_cons_of_mem a (ih m' hm' x hx2)

theorem sortOpt_length {α : Type} (cmp : α → α → Option Ordering) :
    ∀ (l m : List α), sortOpt cmp l = some m → m.length = l.length := by
  intro l
  induction l with
  | nil =>
      intro m hm
      simp only [sortOpt, Option.some.injEq] at hm
      rw [← hm]
  | cons a t ih =>
      intro m hm
      simp only [sortOpt] at hm
      rcases Option.bind_eq_some.mp hm with ⟨m', hm', hins⟩
      rw [insertOpt_length cmp a m' m hins, ih m' hm']
      rfl

theorem sortOpt_isSome {α : Type} (cmp : α → α → Option Ordering) :
    ∀ l : List α, (∀ a ∈ l, ∀ b ∈ l, cmp a b ≠ none) → ∃ m, sortOpt cmp l = some m := by
  intro l
  induction l with
  | nil => intro _; exact ⟨[], rfl⟩
  | cons a t ih =>
      intro h
      rcases ih (fun x hx y hy =>
        h x (List.mem_cons_of_mem a hx) y (List.mem_cons_of_mem a hy)) with ⟨m', hm'⟩
      rcases insertOpt_isSome cmp a m' (fun b hb =>
        h a (List.mem_cons_self a t) b
          (List.mem_cons_of_mem a (sortOpt_mem cmp t m' hm' b hb))) with ⟨m, hm⟩
      exact ⟨m, by simp [sortOpt, hm', hm]⟩

/-- A poisoned element — one whose comparison with anything is undefined —
forces the whole sort to panic as soon as the list has a second element. -/
theorem sortOpt_poison {α : Type} (cmp : α → α → Option Ordering) (o : α)
    (hpo : ∀ b : α, cmp o b = none ∧ cmp b o = none) :
    ∀ l : List α, 2 ≤ l.length → o ∈ l → sortOpt cmp l = none := by
  intro l
  induction l with
  | nil => intro h _; simp at h
  | cons a t ih =>
      intro hlen hmem
      simp only [sortOpt]
      rcases List.mem_cons.mp hmem with rfl | hot
      · -- o is the head; t is nonempty
        cases hst : sortOpt cmp t with
        | none => rfl
        | some m =>
            have hml : m.length = t.length := sortOpt_length cmp t m hst
            have htl : 1 ≤ t.length := by simp at hlen; omega
            cases m with
            | nil => simp at hml; omega
            | cons b s =>
                simp only [Option.some_bind]
                simp [insertOpt, (hpo b).1]
      · -- o is in the tail
        by_cases h2 : 2 ≤ t.length
        · rw [ih h2 hot]; rfl
        · -- t = [o]
          have htl : t.length = 1 := by
            have : 1 ≤ t.length := List.length_pos.mpr (List.ne_nil_of_mem hot)
            omega
          rcases List.length_eq_one.mp htl with ⟨u, hu⟩
          subst hu
          rcases List.mem_singleton.mp hot with rfl
          show (sortOpt cmp [o]).bind (insertOpt cmp a) = none
          have h1 : sortOpt cmp [o] = some [o] := rfl
          rw [h1]
          simp [insertOpt, (hpo a).2]

theorem EF.pcmpOrd_nan_left (x : EF) : EF.pcmpOrd EF.nan x = none := by
  cases x <;> rfl

theorem EF.pcmpOrd_nan_right (x : EF) : EF.pcmpOrd x EF.nan = none := by
  cases x <;> rfl

theorem Star10.dSqr_fin (s o : Star10) (hs : s.isFinite = true) (ho : o.isFinite = true) :
    ∃ q : ℚ, Star10.dSqr s o = EF.fin q := by
  rcases s with ⟨sx, sy⟩
  rcases o with ⟨ox, oy⟩
  cases sx with
  | nan => simp [Star10.isFinite] at hs
  | fin a =>
      cases sy with
      | nan => simp [Star10.isFinite] at hs
      | fin b =>
          cases ox with
          | nan => simp [Star10.isFinite] at ho
          | fin c =>
              cases oy with
              | nan => simp [Star10.isFinite] at ho
              | fin d => exact ⟨(c - a) ^ 2 + (d - b) ^ 2, rfl⟩

theorem cmp10_ne_none (star a b : Star10) (hsa : ∃ q, Star10.dSqr star a = EF.fin q)
    (hsb : ∃ q, Star10.dSqr star b = EF.fin q) : cmp10 star a b ≠ none := by
  rcases hsa with ⟨qa, ha⟩
  rcases hsb with ⟨qb, hb⟩
  simp [cmp10, ha, hb, EF.pcmpOrd]

theorem dSqr_nan_poisons (star o : Star10) (h : Star10.dSqr star o = EF.nan) :
    ∀ b : Star10, cmp10 star o b = none ∧ cmp10 star b o = none := by
  intro b
  constructor
  · simp [cmp10, h, EF.pcmpOrd_nan_left]
  · simp [cmp10, h, EF.pcmpOrd_nan_right]

theorem lineRenderAux_isSome (p q : Bool) (stars : List Star10) :
    ∀ L : List (ℕ × Star10),
      (∀ ix s, (ix, s) ∈ L → ¬ stars.length ≤ ix + 1 →
        ∃ v, nearestSel10 p q s (stars.drop (ix + 1)) = some v) →
      ∃ w, lineRenderAux p q stars L = some w := by
  intro L
  induction L with
  | nil => intro _; exact ⟨[], rfl⟩
  | cons e rest ih =>
      rcases e with ⟨ix, s⟩
      intro h
      by_cases hg : stars.length ≤ ix + 1
      · rcases ih (fun jx u hu hng => h jx u (List.mem_cons_of_mem _ hu) hng) with ⟨w, hw⟩
        exact ⟨w, by simp [lineRenderAux, hg, hw]⟩
      · rcases h ix s (List.mem_cons_self _ _) hg with ⟨v, hv⟩
        rcases ih (fun jx u hu hng => h jx u (List.mem_cons_of_mem _ hu) hng) with ⟨w, hw⟩
        exact ⟨v ++ w, by simp [lineRenderAux, hg, hv, hw]⟩

theorem lineRenderAux_none (p q : Bool) (stars : List Star10) :
    ∀ (L : List (ℕ × Star10)) (ix : ℕ) (s : Star10), (ix, s) ∈ L →
      ¬ stars.length ≤ ix + 1 →
      nearestSel10 p q s (stars.drop (ix + 1)) = none →
      lineRenderAux p q stars L = none := by
  intro L
  induction L with
  | nil => intro ix s h; simp at h
  | cons e rest ih =>
      rcases e with ⟨jx, u⟩
      intro ix s hmem hng hnone
      rcases List.mem_cons.mp hmem with heq | htail
      · have hj : jx = ix := (Prod.mk.injEq _ _ _ _ ▸ heq).1.symm
        have hu : u = s := (Prod.mk.injEq _ _ _ _ ▸ heq).2.symm
        subst hj; subst hu
        simp [lineRenderAux, hng, hnone]
      · have hrest : lineRenderAux p q stars rest = none := ih ix s htail hng hnone
        by_cases hg : stars.length ≤ jx + 1
        · simp [lineRenderAux, hg, hrest]
        · cases hsel : nearestSel10 p q u (stars.drop (jx + 1)) with
          | none => simp [lineRenderAux, hg, hsel]
          | some xs => simp [lineRenderAux, hg, hsel, hrest]

-- Clock, spawn-cadence and angle lemmas about iterated ticks.

theorem TICK_DURATION_NS_eq : TICK_DURATION_NS = 16666666 := by norm_num [TICK_DURATION_NS]

theorem tick_now (cosf sinf sqrtf : ℚ → ℚ) (r : Rect) (g : MyGame) :
    (MyGame.tick cosf sinf sqrtf r g).now = g.now + TICK_DURATION_NS := rfl

theorem ticks_now (cosf sinf sqrtf : ℚ → ℚ) (r : Rect) :
    ∀ (k : ℕ) (g : MyGame),
      (MyGame.ticks cosf sinf sqrtf r k g).now = g.now + k * TICK_DURATION_NS := by
  intro k
  induction k with
  | zero => intro g; simp [MyGame.ticks]
  | succ k ih =>
      intro g
      show (MyGame.tick cosf sinf sqrtf r (MyGame.ticks cosf sinf sqrtf r k g)).now = _
      rw [tick_now, ih]
      ring

theorem tick_last_star (cosf sinf sqrtf : ℚ → ℚ) (r : Rect) (g : MyGame) :
    (MyGame.tick cosf sinf sqrtf r g).last_star =
      if decide (g.last_star + STAR_DELAY_NS ≤ g.now + TICK_DURATION_NS) = true then
        g.now + TICK_DURATION_NS
      else g.last_star := by simp only [MyGame.tick]

theorem tick_spawned (cosf sinf sqrtf : ℚ → ℚ) (r : Rect) (g : MyGame) :
    (MyGame.tick cosf sinf sqrtf r g).spawned =
      if decide (g.last_star + STAR_DELAY_NS ≤ g.now + TICK_DURATION_NS) = true then
        g.spawned + 1
      else g.spawned := by simp only [MyGame.tick]

theorem tick_angle (cosf sinf sqrtf : ℚ → ℚ) (r : Rect) (g : MyGame) :
    (MyGame.tick cosf sinf sqrtf r g).angle = wrap2Pi (g.angle + g.angle_delta) := rfl

theorem tick_angle_delta (cosf sinf sqrtf : ℚ → ℚ) (r : Rect) (g : MyGame) :
    (MyGame.tick cosf sinf sqrtf r g).angle_delta =
      wrap2Pi (g.angle_delta + ANGLE_ACCEL * TICK_SCALE) := rfl

theorem ticks_succ (cosf sinf sqrtf : ℚ → ℚ) (r : Rect) (k : ℕ) (g : MyGame) :
    MyGame.ticks cosf sinf sqrtf r (k + 1) g =
      MyGame.tick cosf sinf sqrtf r (MyGame.ticks cosf sinf sqrtf r k g) := rfl

theorem ticks_spawn_invariant (cosf sinf sqrtf : ℚ → ℚ) (r : Rect) :
    ∀ k : ℕ,
      (MyGame.ticks cosf sinf sqrtf r k initGame).now = k * TICK_DURATION_NS ∧
      (MyGame.ticks cosf sinf sqrtf r k initGame).last_star =
        7 * (k / 7) * TICK_DURATION_NS ∧
      (MyGame.ticks cosf sinf sqrtf r k initGame).spawned = k / 7 := by
  intro k
  induction k with
  | zero => exact ⟨rfl, by simp [MyGame.ticks, initGame], rfl⟩
  | succ k ih =>
      rcases ih with ⟨hnow, hlast, hsp⟩
      have hD := TICK_DURATION_NS_eq
      have hnow' : (MyGame.ticks cosf sinf sqrtf r (k + 1) initGame).now =
          (k + 1) * TICK_DURATION_NS := by
        rw [ticks_now]
        simp [initGame]
      refine ⟨hnow', ?_, ?_⟩
      · rw [ticks_succ, tick_last_star]
        by_cases hc : (MyGame.ticks cosf sinf sqrtf r k initGame).last_star + STAR_DELAY_NS ≤
            (MyGame.ticks cosf sinf sqrtf r k initGame).now + TICK_DURATION_NS
        · have hmod : k % 7 = 6 := by
            rw [hlast, hnow, hD] at hc
            simp only [STAR_DELAY_NS] at hc
            omega
          rw [decide_eq_true hc, if_pos rfl, hnow, hD]
          omega
        · have hmod : k % 7 ≠ 6 := by
            rw [hlast, hnow, hD] at hc
            simp only [STAR_DELAY_NS] at hc
            omega
          rw [decide_eq_false hc]
          simp only [Bool.false_eq_true, if_false]
          rw [hlast, hD]
          omega
      · rw [ticks_succ, tick_spawned]
        by_cases hc : (MyGame.ticks cosf sinf sqrtf r k initGame).last_star + STAR_DELAY_NS ≤
            (MyGame.ticks cosf sinf sqrtf r k initGame).now + TICK_DURATION_NS
        · have hmod : k % 7 = 6 := by
            rw [hlast, hnow, hD] at hc
            simp only [STAR_DELAY_NS] at hc
            omega
          rw [decide_eq_true hc, if_pos rfl, hsp]
          omega
        · have hmod : k % 7 ≠ 6 := by
            rw [hlast, hnow, hD] at hc
            simp only [STAR_DELAY_NS] at hc
            omega
          rw [decide_eq_false hc]
          simp only [Bool.false_eq_true, if_false]
          rw [hsp]
          omega

theorem wrap2Pi_bounds (x : ℚ) (h0 : 0 ≤ x) (h1 : x ≤ 4 * PI32) :
    0 ≤ wrap2Pi x ∧ wrap2Pi x ≤ 2 * PI32 := by
  unfold wrap2Pi
  by_cases hx : 2 * PI32 < x
  · rw [if_pos hx]
    constructor <;> linarith
  · rw [if_neg hx]
    exact ⟨h0, not_lt.mp hx⟩

/-- The pure angular-velocity iteration: what `angle_delta` does each tick. -/
def deltaIter (d : ℚ) : ℕ → ℚ
  | 0 => d
  | n + 1 => wrap2Pi (deltaIter d n + ANGLE_ACCEL * TICK_SCALE)

theorem ticks_angle_delta (cosf sinf sqrtf : ℚ → ℚ) (r : Rect) :
    ∀ (k : ℕ) (g : MyGame),
      (MyGame.ticks cosf sinf sqrtf r k g).angle_delta = deltaIter g.angle_delta k := by
  intro k
  induction k with
  | zero => intro g; rfl
  | succ k ih =>
      intro g
      rw [ticks_succ, tick_angle_delta, ih]
      rfl

theorem ticks_angle_bounds (cosf sinf sqrtf : ℚ → ℚ) (r : Rect) :
    ∀ k : ℕ,
      0 ≤ (MyGame.ticks cosf sinf sqrtf r k initGame).angle ∧
      (MyGame.ticks cosf sinf sqrtf r k initGame).angle ≤ 2 * PI32 ∧
      0 ≤ (MyGame.ticks cosf sinf sqrtf r k initGame).angle_delta ∧
      (MyGame.ticks cosf sinf sqrtf r k initGame).angle_delta ≤ 2 * PI32 := by
  intro k
  induction k with
  | zero =>
      refine ⟨le_refl 0, ?_, le_refl 0, ?_⟩ <;> norm_num [MyGame.ticks, initGame, PI32]
  | succ k ih =>
      rcases ih with ⟨ha0, ha1, hd0, hd1⟩
      have hc0 : (0 : ℚ) ≤ ANGLE_ACCEL * TICK_SCALE := by
        norm_num [ANGLE_ACCEL, TICK_SCALE]
      have hcM : ANGLE_ACCEL * TICK_SCALE ≤ 2 * PI32 := by
        norm_num [ANGLE_ACCEL, TICK_SCALE, PI32]
      rw [ticks_succ, tick_angle, tick_angle_delta]
      have hb1 := wrap2Pi_bounds
        ((MyGame.ticks cosf sinf sqrtf r k initGame).angle +
          (MyGame.ticks cosf sinf sqrtf r k initGame).angle_delta)
        (by linarith) (by linarith)
      have hb2 := wrap2Pi_bounds
        ((MyGame.ticks cosf sinf sqrtf r k initGame).angle_delta +
          ANGLE_ACCEL * TICK_SCALE)
        (by linarith) (by linarith)
      exact ⟨hb1.1, hb1.2, hb2.1, hb2.2⟩

/-- The accumulation constant ANGLE_ACCEL * TICK_SCALE measured in wrap units. -/
def uConst : ℚ := (ANGLE_ACCEL * TICK_SCALE) / (2 * PI32)

theorem uConst_pos : 0 < uConst := by
  norm_num [uConst, ANGLE_ACCEL, TICK_SCALE, PI32]

theorem uConst_lt_one : uConst < 1 := by
  norm_num [uConst, ANGLE_ACCEL, TICK_SCALE, PI32]

theorem M32_pos : (0 : ℚ) < 2 * PI32 := by norm_num [PI32]

theorem accel_eq_M_mul_u : ANGLE_ACCEL * TICK_SCALE = (2 * PI32) * uConst := by
  norm_num [uConst, ANGLE_ACCEL, TICK_SCALE, PI32]

/-- Exact closed form of the angular-velocity iteration started at 0: after n
ticks the value is 2*PI32 * fract(n * uConst), except that an exact multiple
of the wrap threshold leaves the value AT the threshold (the wraparound test
is strict), giving exactly 2*PI32. -/
theorem deltaIter_closed :
    ∀ n : ℕ,
      deltaIter 0 n =
        if n = 0 then 0
        else if Int.fract ((n : ℚ) * uConst) = 0 then 2 * PI32
        else (2 * PI32) * Int.fract ((n : ℚ) * uConst) := by
  intro n
  induction n with
  | zero => simp [deltaIter]
  | succ n ih =>
      have hM : (0 : ℚ) < 2 * PI32 := M32_pos
      have hu0 : 0 < uConst := uConst_pos
      have hu1 : uConst < 1 := uConst_lt_one
      have hc : ANGLE_ACCEL * TICK_SCALE = (2 * PI32) * uConst := accel_eq_M_mul_u
      have hcast : (((n + 1 : ℕ)) : ℚ) = (n : ℚ) + 1 := by push_cast; ring
      have hkey : Int.fract (((n : ℚ) + 1) * uConst) =
          Int.fract (Int.fract ((n : ℚ) * uConst) + uConst) := by
        have hx : Int.fract ((n : ℚ) * uConst) =
            (n : ℚ) * uConst - (⌊(n : ℚ) * uConst⌋ : ℚ) := (Int.self_sub_floor _).symm
        have h1 : ((n : ℚ) + 1) * uConst =
            (⌊(n : ℚ) * uConst⌋ : ℚ) + (Int.fract ((n : ℚ) * uConst) + uConst) := by
          rw [hx]; ring
        rw [h1, Int.fract_int_add]
      show wrap2Pi (deltaIter 0 n + ANGLE_ACCEL * TICK_SCALE) = _
      by_cases hn0 : n = 0
      · subst hn0
        have hfr : Int.fract ((1 : ℚ) * uConst) = uConst := by
          rw [one_mul]
          exact Int.fract_eq_self.mpr ⟨le_of_lt hu0, hu1⟩
        have hne : ¬ (2 * PI32 < 0 + ANGLE_ACCEL * TICK_SCALE) := by
          norm_num [ANGLE_ACCEL, TICK_SCALE, PI32]
        simp only [deltaIter, wrap2Pi, hne, if_false]
        rw [if_neg (by norm_num : ¬ (0 + 1 = 0))]
        push_cast
        rw [hfr, if_neg (ne_of_gt hu0), hc]
        ring
      · rw [ih, if_neg hn0]
        have hφ0 : 0 ≤ Int.fract ((n : ℚ) * uConst) := Int.fract_nonneg _
        have hφ1 : Int.fract ((n : ℚ) * uConst) < 1 := Int.fract_lt_one _
        rw [if_neg (Nat.succ_ne_zero n), hcast, hkey]
        by_cases hφz : Int.fract ((n : ℚ) * uConst) = 0
        · rw [if_pos hφz, hφz]
          have hfr : Int.fract ((0 : ℚ) + uConst) = uConst := by
            rw [zero_add]
            exact Int.fract_eq_self.mpr ⟨le_of_lt hu0, hu1⟩
          rw [hfr, if_neg (ne_of_gt hu0)]
          have hlt : 2 * PI32 < 2 * PI32 + ANGLE_ACCEL * TICK_SCALE := by
            have : (0 : ℚ) < ANGLE_ACCEL * TICK_SCALE := by
              norm_num [ANGLE_ACCEL, TICK_SCALE]
            linarith
          unfold wrap2Pi
          rw [if_pos hlt, hc]
          ring
        · rw [if_neg hφz]
          set φ := Int.fract ((n : ℚ) * uConst) with hφdef
          have hφpos : 0 < φ := lt_of_le_of_ne hφ0 (Ne.symm hφz)
          have harg : (2 * PI32) * φ + ANGLE_ACCEL * TICK_SCALE =
              (2 * PI32) * (φ + uConst) := by rw [hc]; ring
          rw [harg]
          have hψ0 : 0 < φ + uConst := by linarith
          have hψ2 : φ + uConst < 2 := by linarith
          rcases lt_trichotomy (φ + uConst) 1 with h1 | h1 | h1
          · have hfr : Int.fract (φ + uConst) = φ + uConst :=
              Int.fract_eq_self.mpr ⟨le_of_lt hψ0, h1⟩
            rw [hfr, if_neg (ne_of_gt hψ0)]
            unfold wrap2Pi
            rw [if_neg (by nlinarith)]
          · have hfr : Int.fract (φ + uConst) = 0 := by
              rw [h1]
              have : ((1 : ℤ) : ℚ) = (1 : ℚ) := by norm_num
              rw [← this, Int.fract_intCast]
            rw [hfr, if_pos rfl, h1, mul_one]
            unfold wrap2Pi
            rw [if_neg (lt_irrefl _)]
          · have hfr : Int.fract (φ + uConst) = φ + uConst - 1 := by
              have hrw : φ + uConst = (φ + uConst - 1) + ((1 : ℤ) : ℚ) := by
                push_cast; ring
              calc Int.fract (φ + uConst)
                  = Int.fract ((φ + uConst - 1) + ((1 : ℤ) : ℚ)) := congrArg Int.fract hrw
                _ = Int.fract (φ + uConst - 1) := Int.fract_add_int _ _
                _ = φ + uConst - 1 := Int.fract_eq_self.mpr ⟨by linarith, by linarith⟩
            rw [hfr, if_neg (by intro hcon; linarith [hcon])]
            unfold wrap2Pi
            rw [if_pos (by nlinarith)]
            ring

theorem deltaIter_at_boundary : deltaIter 0 4941298125 = 2 * PI32 := by
  rw [deltaIter_closed]
  rw [if_neg (by norm_num)]
  have hNu : ((4941298125 : ℕ) : ℚ) * uConst = ((131072 : ℤ) : ℚ) := by
    norm_num [uConst, ANGLE_ACCEL, TICK_SCALE, PI32]
  rw [hNu, Int.fract_intCast, if_pos rfl]

-- Spawn-order (ghost timestamp) preservation lemmas.

theorem Star'.tick_spawnNs (s : Star') : (Star'.tick s).spawnNs = s.spawnNs := rfl

theorem postSpawn_pairwise (cosf sinf : ℚ → ℚ) (g : MyGame)
    (hs : List.Pairwise (fun a b : Star' => a.spawnNs ≤ b.spawnNs) g.stars)
    (hn : ∀ st ∈ g.stars, st.spawnNs ≤ g.now) :
    List.Pairwise (fun a b : Star' => a.spawnNs ≤ b.spawnNs) (g.postSpawn cosf sinf) ∧
    ∀ st ∈ g.postSpawn cosf sinf, st.spawnNs ≤ g.now + TICK_DURATION_NS := by
  unfold MyGame.postSpawn
  by_cases hc : g.last_star + STAR_DELAY_NS ≤ g.now + TICK_DURATION_NS
  · rw [if_pos hc]
    constructor
    · rw [List.pairwise_append]
      refine ⟨hs, List.pairwise_singleton _ _, ?_⟩
      intro a ha b hb
      rcases List.mem_singleton.mp hb with rfl
      show a.spawnNs ≤ g.now + TICK_DURATION_NS
      exact le_trans (hn a ha) (Nat.le_add_right _ _)
    · intro st hst
      rcases List.mem_append.mp hst with h1 | h2
      · exact le_trans (hn st h1) (Nat.le_add_right _ _)
      · rcases List.mem_singleton.mp h2 with rfl
        exact le_refl _
  · rw [if_neg hc]
    exact ⟨hs, fun st hst => le_trans (hn st hst) (Nat.le_add_right _ _)⟩

theorem postEvict_pairwise (cosf sinf : ℚ → ℚ) (r : Rect) (g : MyGame)
    (hs : List.Pairwise (fun a b : Star' => a.spawnNs ≤ b.spawnNs) g.stars)
    (hn : ∀ st ∈ g.stars, st.spawnNs ≤ g.now) :
    List.Pairwise (fun a b : Star' => a.spawnNs ≤ b.spawnNs) (g.postEvict cosf sinf r) ∧
    ∀ st ∈ g.postEvict cosf sinf r, st.spawnNs ≤ g.now + TICK_DURATION_NS := by
  rcases postSpawn_pairwise cosf sinf g hs hn with ⟨hp, hm⟩
  have hsub : (g.postEvict cosf sinf r).Sublist (g.postSpawn cosf sinf) :=
    (List.dropWhile_suffix _).sublist
  exact ⟨hp.sublist hsub, fun st hst => hm st (hsub.subset hst)⟩

/-- After the eviction loop stops, the front star (if any) passed the bounds
test: the dropWhile condition is false at the head. -/
theorem postEvict_head_contains (cosf sinf : ℚ → ℚ) (r : Rect) (g : MyGame) :
    ∀ st : Star', (g.postEvict cosf sinf r).head? = some st → r.contains st.pos = true := by
  intro st h
  have := head?_dropWhile_not (fun s : Star' => ! r.contains s.pos) (g.postSpawn cosf sinf) st h
  simp at this
  exact this

theorem tick_stars_none (cosf sinf sqrtf : ℚ → ℚ) (r : Rect) (g : MyGame)
    (h : g.mouse = none) :
    (MyGame.tick cosf sinf sqrtf r g).stars = (g.postEvict cosf sinf r).map Star'.tick := by
  simp only [MyGame.tick, h]

theorem tick_stars_some (cosf sinf sqrtf : ℚ → ℚ) (r : Rect) (g : MyGame) (mp : Vec2)
    (h : g.mouse = some mp) :
    (MyGame.tick cosf sinf sqrtf r g).stars =
      ((g.postEvict cosf sinf r).map Star'.tick).map
        (fun s => { s with seed :=
            s.seed + MOUSE_SCALE / sqrtf ((mp.x - s.pos.x)^2 + (mp.y - s.pos.y)^2) }) := by
  simp only [MyGame.tick, h]

theorem postEvict_mouse_irrel (cosf sinf : ℚ → ℚ) (r : Rect) (g : MyGame) :
    ({ g with mouse := none } : MyGame).postEvict cosf sinf r = g.postEvict cosf sinf r := rfl

theorem lineRender10_small (p q : Bool) (stars : List Star10) (h : stars.length ≤ 1) :
    lineRender10 p q stars = some [] := by
  cases stars with
  | nil => rfl
  | cons a t =>
      cases t with
      | nil => rfl
      | cons b t2 => simp at h

-- Concrete instantiations used by witnesses and counterexamples.

def zeroF : ℚ → ℚ := fun _ => 0

def oneF : ℚ → ℚ := fun _ => 1

def idF : ℚ → ℚ := fun q => q

def screenRect : Rect := ⟨-500, -500, 1000, 1000⟩

def unitRect : Rect := ⟨0, 0, 1, 1⟩

def emptyRect : Rect := ⟨0, 0, -1, -1⟩

-- C6 ------------------------------------------------------------------

/-- C6: after k tick/advance calls the simulated clock has advanced by exactly
k times the fixed tick duration, from any starting state; wall-clock timing
does not occur in the update at all. -/
theorem sim_clock_exact (cosf sinf sqrtf : ℚ → ℚ) (r : Rect) (k : ℕ) (g : MyGame) :
    (MyGame.ticks cosf sinf sqrtf r k g).now = g.now + k * TICK_DURATION_NS :=
  ticks_now cosf sinf sqrtf r k g

-- C9 ------------------------------------------------------------------

/-- C9: the field renderer is a pure function of the particle snapshot, the
simulated time and the render configuration (draw mode and the two neighbor
toggles): any two states agreeing on those — in particular the same state
rendered twice — produce the identical sequence of draw primitives, and no
simulation state is mutated (the renderer is a function of the state). -/
theorem render_deterministic (sqrtf sinf : ℚ → ℚ) (g1 g2 : MyGame)
    (h1 : g1.stars = g2.stars) (h2 : g1.now = g2.now)
    (h3 : g1.draw_mode = g2.draw_mode) (h4 : g1.primary_nearest = g2.primary_nearest)
    (h5 : g1.secondary_nearest = g2.secondary_nearest) :
    g1.drawField sqrtf sinf = g2.drawField sqrtf sinf := by
  unfold MyGame.drawField MyGame.drawNearestLine MyGame.nowF
  rw [h1, h2, h3, h4, h5]

/-- Witness for C9 at a concrete input: two states differing only in fields
the renderer does not read (angle, angular velocity, attractor) render
identically. -/
theorem render_deterministic_witness :
    MyGame.drawField zeroF zeroF
        { initGame with angle := 5, angle_delta := 3, mouse := some ⟨1, 2⟩ } =
      MyGame.drawField zeroF zeroF initGame :=
  render_deterministic zeroF zeroF _ _ rfl rfl rfl rfl rfl

-- C8 ------------------------------------------------------------------

/-- C8: with 0 or 1 particles the field renderer in line mode emits zero
connector primitives and does not fail: the pure renderer returns the empty
primitive list, and the panic-refined line renderer returns `some []` (it
performs no comparison, hence cannot panic). -/
theorem degenerate_render_empty (sqrtf sinf : ℚ → ℚ) (g : MyGame)
    (hm : g.draw_mode = DrawMode.Lines) (hl : g.stars.length ≤ 1)
    (p q : Bool) (stars10 : List Star10) (hl10 : stars10.length ≤ 1) :
    g.drawField sqrtf sinf = [] ∧ lineRender10 p q stars10 = some [] := by
  refine ⟨?_, lineRender10_small p q stars10 hl10⟩
  unfold MyGame.drawField
  rw [hm]
  cases hst : g.stars with
  | nil => rfl
  | cons a t =>
      cases t with
      | nil => rfl
      | cons b t2 => rw [hst] at hl; simp at hl

/-- Witness for C8 at concrete inputs: a one-star state in line mode and a
one-star list for the refined renderer. -/
theorem degenerate_render_empty_witness :
    MyGame.drawField zeroF zeroF
        { initGame with stars := [⟨⟨1, 2⟩, ⟨3, 4⟩, 5, 6⟩] } = [] ∧
      lineRender10 true true [⟨EF.fin 1, EF.fin 2⟩] = some [] :=
  degenerate_render_empty zeroF zeroF _ rfl (by decide) true true _ (by decide)

-- C7 ------------------------------------------------------------------

/-- C7: with an active attractor at mp, tick produces exactly the stars of
the attractor-free tick with each star's seed increased by
MOUSE_SCALE / distance(star, attractor) — inversely proportional to the
distance — while every star's position and velocity are unaffected by the
attractor. -/
theorem attractor_perturbs_seed_only (cosf sinf sqrtf : ℚ → ℚ) (r : Rect)
    (g : MyGame) (mp : Vec2) (h : g.mouse = some mp) :
    (MyGame.tick cosf sinf sqrtf r g).stars =
      ((MyGame.tick cosf sinf sqrtf r { g with mouse := none }).stars).map
        (fun s => { s with seed :=
            s.seed + MOUSE_SCALE / sqrtf ((mp.x - s.pos.x)^2 + (mp.y - s.pos.y)^2) }) ∧
    ((MyGame.tick cosf sinf sqrtf r g).stars).map (fun s => s.pos) =
      ((MyGame.tick cosf sinf sqrtf r { g with mouse := none }).stars).map
        (fun s => s.pos) ∧
    ((MyGame.tick cosf sinf sqrtf r g).stars).map (fun s => s.delta) =
      ((MyGame.tick cosf sinf sqrtf r { g with mouse := none }).stars).map
        (fun s => s.delta) := by
  have hnone : ({ g with mouse := none } : MyGame).mouse = none := rfl
  rw [tick_stars_some cosf sinf sqrtf r g mp h,
      tick_stars_none cosf sinf sqrtf r _ hnone, postEvict_mouse_irrel]
  refine ⟨rfl, ?_, ?_⟩ <;> (simp only [List.map_map]; rfl)

/-- A concrete state with a held attractor, for the C7 witness. -/
def mouseGame : MyGame :=
  { initGame with stars := [⟨⟨1, 1⟩, ⟨2, 0⟩, 3, 0⟩, ⟨⟨0, 2⟩, ⟨0, 2⟩, 4, 1⟩],
                  mouse := some ⟨4, 5⟩ }

/-- Witness for C7 at a concrete input: a held attractor over a two-star
state; the tick equals the attractor-free tick with the documented seed
perturbation mapped over the stars. -/
theorem attractor_perturbs_seed_only_witness :
    (MyGame.tick zeroF zeroF oneF screenRect mouseGame).stars =
      ((MyGame.tick zeroF zeroF oneF screenRect
          { mouseGame with mouse := none }).stars).map
        (fun s => { s with seed :=
            s.seed + MOUSE_SCALE / oneF (((4 : ℚ) - s.pos.x)^2 + ((5 : ℚ) - s.pos.y)^2) }) :=
  (attractor_perturbs_seed_only zeroF zeroF oneF screenRect mouseGame ⟨4, 5⟩ rfl).1

-- C1 ------------------------------------------------------------------

/-- C1 (amended): after any tick from a state whose star list is sorted by
spawn time with all spawn timestamps in the past, the star list remains
sorted by spawn order (append-only spawning at the back, eviction only at
the front, in-place updates); the eviction test runs before the per-tick
movement and stops at the first in-bounds star, so what holds of positions is
that the frontmost survivor of the eviction step was inside the bounds at
eviction time — a star can end the tick outside the bounds and is only caught
by a later tick's eviction. -/
theorem tick_spawn_order_and_eviction (cosf sinf sqrtf : ℚ → ℚ) (r : Rect) (g : MyGame)
    (hs : List.Pairwise (fun a b : Star' => a.spawnNs ≤ b.spawnNs) g.stars)
    (hn : ∀ st ∈ g.stars, st.spawnNs ≤ g.now) :
    List.Pairwise (fun a b : Star' => a.spawnNs ≤ b.spawnNs)
      (MyGame.tick cosf sinf sqrtf r g).stars ∧
    (∀ st ∈ (MyGame.tick cosf sinf sqrtf r g).stars,
      st.spawnNs ≤ (MyGame.tick cosf sinf sqrtf r g).now) ∧
    (∀ st : Star', (g.postEvict cosf sinf r).head? = some st →
      r.contains st.pos = true) := by
  rcases postEvict_pairwise cosf sinf r g hs hn with ⟨hp, hm⟩
  refine ⟨?_, ?_, postEvict_head_contains cosf sinf r g⟩
  · cases hmouse : g.mouse with
    | none =>
        rw [tick_stars_none cosf sinf sqrtf r g hmouse, List.pairwise_map]
        exact hp
    | some mp =>
        rw [tick_stars_some cosf sinf sqrtf r g mp hmouse, List.pairwise_map,
            List.pairwise_map]
        exact hp
  · intro st hst
    rw [tick_now]
    cases hmouse : g.mouse with
    | none =>
        rw [tick_stars_none cosf sinf sqrtf r g hmouse] at hst
        rcases List.mem_map.mp hst with ⟨s', hs', rfl⟩
        exact hm s' hs'
    | some mp =>
        rw [tick_stars_some cosf sinf sqrtf r g mp hmouse] at hst
        rcases List.mem_map.mp hst with ⟨s2, hs2, rfl⟩
        rcases List.mem_map.mp hs2 with ⟨s', hs', rfl⟩
        exact hm s' hs'

/-- Witness for C1 at a concrete input: a sorted two-star state. -/
theorem tick_spawn_order_and_eviction_witness :
    List.Pairwise (fun a b : Star' => a.spawnNs ≤ b.spawnNs)
      (MyGame.tick zeroF zeroF zeroF screenRect
        { initGame with stars := [⟨⟨1, 0⟩, ⟨1, 0⟩, 0, 2⟩, ⟨⟨2, 0⟩, ⟨1, 0⟩, 0, 5⟩],
                        now := 1000000 }).stars :=
  (tick_spawn_order_and_eviction zeroF zeroF zeroF screenRect
    { initGame with stars := [⟨⟨1, 0⟩, ⟨1, 0⟩, 0, 2⟩, ⟨⟨2, 0⟩, ⟨1, 0⟩, 0, 5⟩],
                    now := 1000000 }
    (by decide) (by decide)).1

/-- C1 counterexample: starting from the initial state with a 1x1 screen and
the velocity-direction functions fixed at (1, 0), the star spawned at tick 7
reaches x = 1 (still inside, so not evicted) at the start of tick 13 and is
then moved to x = 7/6 > 1: after that tick a retained star lies outside the
visible bounds, refuting the claim that every remaining particle is inside
the bounds after every advance. -/
theorem tick_leaves_particle_outside_bounds :
    ((MyGame.ticks oneF zeroF zeroF unitRect 13 initGame).stars.all
      (fun st => unitRect.contains st.pos)) = false ∧
    (MyGame.ticks oneF zeroF zeroF unitRect 13 initGame).stars.length = 1 := by
  constructor <;>
    norm_num [MyGame.ticks, MyGame.tick, MyGame.postSpawn, MyGame.postEvict,
      initGame, Star'.spawn, Star'.tick, Rect.contains, Vec2.add, Vec2.scale,
      oneF, zeroF, unitRect, wrap2Pi, TICK_DURATION_NS, STAR_DELAY_NS,
      TICK_SCALE, STAR_SPEED, STAR_ACCEL, ANGLE_ACCEL, PI32, List.dropWhile]

-- C3 ------------------------------------------------------------------

/-- C3: for every particle except the last in spawn order, the star selected
as primary nearest (head of the sorted candidate list) is the later-spawned
star of minimum squared Euclidean distance, first in scan order on ties, and
the secondary nearest (second element) is the first minimum of the remaining
candidates, i.e. the second minimum with the same tie-break. -/
theorem nearest_selection_spec (stars : List Star') (star : Star') (ix : ℕ)
    (_hix : stars[ix]? = some star) (_hlast : ix + 1 < stars.length) :
    (nearestSortedList star (stars.drop (ix + 1)))[0]? =
      firstMinBy star.distanceSqrTo (stars.drop (ix + 1)) ∧
    (nearestSortedList star (stars.drop (ix + 1)))[1]? =
      firstMinBy star.distanceSqrTo
        (eraseFirstMinBy star.distanceSqrTo (stars.drop (ix + 1))) := by
  constructor
  · rw [← List.head?_eq_getElem?]
    exact nearestSortedList_head? star _
  · have h1 : ∀ l : List Star', l[1]? = l.tail.head? := by
      intro l
      cases l with
      | nil => rfl
      | cons a t => rw [List.head?_eq_getElem?, List.getElem?_cons_succ, List.tail_cons]
    rw [h1, nearestSortedList_tail, nearestSortedList_head?]

/-- Stars at distances 9 and 16 from the head star, for the C3 witness. -/
def c3s0 : Star' := ⟨⟨0, 0⟩, ⟨0, 0⟩, 0, 0⟩

def c3s1 : Star' := ⟨⟨3, 0⟩, ⟨0, 0⟩, 0, 1⟩

def c3s2 : Star' := ⟨⟨0, 4⟩, ⟨0, 0⟩, 0, 2⟩

/-- Witness for C3 at a concrete input: the synthetic three-star
configuration with squared distances 9 and 16. -/
theorem nearest_selection_spec_witness :
    (nearestSortedList c3s0 ([c3s0, c3s1, c3s2].drop 1))[0]? =
      firstMinBy c3s0.distanceSqrTo ([c3s0, c3s1, c3s2].drop 1) ∧
    (nearestSortedList c3s0 ([c3s0, c3s1, c3s2].drop 1))[1]? =
      firstMinBy c3s0.distanceSqrTo
        (eraseFirstMinBy c3s0.distanceSqrTo ([c3s0, c3s1, c3s2].drop 1)) :=
  nearest_selection_spec [c3s0, c3s1, c3s2] c3s0 0 rfl (by decide)

/-- Deterministic tie-break, concretely: two candidates at equal squared
distance 9; the first in scan order wins both in the sorted list and in the
spec-side selector. -/
theorem nearest_selection_tiebreak_example :
    (nearestSortedList c3s0 [⟨⟨3, 0⟩, ⟨0, 0⟩, 0, 1⟩, ⟨⟨-3, 0⟩, ⟨0, 0⟩, 0, 2⟩])[0]? =
      some ⟨⟨3, 0⟩, ⟨0, 0⟩, 0, 1⟩ ∧
    firstMinBy c3s0.distanceSqrTo
        [⟨⟨3, 0⟩, ⟨0, 0⟩, 0, 1⟩, ⟨⟨-3, 0⟩, ⟨0, 0⟩, 0, 2⟩] =
      some ⟨⟨3, 0⟩, ⟨0, 0⟩, 0, 1⟩ := by
  constructor <;>
    norm_num [nearestSortedList, List.insertionSort, List.orderedInsert,
      starDistLe, Star'.distanceSqrTo, firstMinBy, c3s0,
      List.head?_eq_getElem?]

-- C2 ------------------------------------------------------------------

/-- C2 (amended): draw_interp_line emits exactly
n = ceil(distance / MAX_SEGMENT_LEN) segments, with n ≥ 1 whenever the
endpoint distance is positive (coincident endpoints give n = 0 and an empty
emission, so the claimed unconditional n ≥ 1 fails only there); the i-th
segment runs from A.pos + i*posDelta to A.pos + (i+1)*posDelta, with constant
color equal to A's color (evaluated at the current simulated time) advanced i
times by the per-channel delta (B.color - A.color)/n. -/
theorem draw_interp_line_spec (sqrtf sinf : ℚ → ℚ) (a b : Star') (t : ℚ) :
    (drawInterpLine sqrtf sinf a b t).length = (interpCount sqrtf a b).toNat ∧
    (0 < sqrtf (((b.pos.sub a.pos).x) ^ 2 + ((b.pos.sub a.pos).y) ^ 2) →
      1 ≤ (drawInterpLine sqrtf sinf a b t).length) ∧
    (∀ i : ℕ, i < (drawInterpLine sqrtf sinf a b t).length →
      (drawInterpLine sqrtf sinf a b t)[i]? =
        some (Prim.line
          (a.pos.add ((interpPosDelta sqrtf a b).scale (i : ℚ)))
          (a.pos.add ((interpPosDelta sqrtf a b).scale ((i : ℚ) + 1)))
          ⟨(a.color sinf t).r + (i : ℚ) * (interpColorDelta sqrtf sinf a b t).r,
           (a.color sinf t).g + (i : ℚ) * (interpColorDelta sqrtf sinf a b t).g,
           (a.color sinf t).b + (i : ℚ) * (interpColorDelta sqrtf sinf a b t).b,
           1⟩)) := by
  have hlen : (drawInterpLine sqrtf sinf a b t).length = (interpCount sqrtf a b).toNat :=
    interpSegs_length _ _ _ _ _
  refine ⟨hlen, ?_, ?_⟩
  · intro hpos
    have hq : 0 < sqrtf (((b.pos.sub a.pos).x) ^ 2 + ((b.pos.sub a.pos).y) ^ 2) /
        MAX_SEGMENT_LEN := by
      apply div_pos hpos
      norm_num [MAX_SEGMENT_LEN]
    have hcpos : 0 < interpCount sqrtf a b := Int.ceil_pos.mpr hq
    rw [hlen]
    omega
  · intro i hi
    rw [hlen] at hi
    exact interpSegs_getElem? (interpPosDelta sqrtf a b)
      (interpColorDelta sqrtf sinf a b t) ((interpCount sqrtf a b).toNat)
      a.pos (a.color sinf t) rfl i hi

/-- Endpoint stars at (0,0) and (10,0), for the C2 witness. -/
def c2A : Star' := ⟨⟨0, 0⟩, ⟨0, 0⟩, 0, 0⟩

def c2B : Star' := ⟨⟨10, 0⟩, ⟨0, 0⟩, 1, 0⟩

/-- The exact square root of the squared distance 100 of the C2 witness pair. -/
def sqrtW : ℚ → ℚ := fun _ => 10

/-- Witness for C2 at a concrete input: endpoints (0,0) and (10,0) with a
positive distance get at least one segment. -/
theorem draw_interp_line_spec_witness :
    0 < sqrtW (((c2B.pos.sub c2A.pos).x) ^ 2 + ((c2B.pos.sub c2A.pos).y) ^ 2) ∧
    1 ≤ (drawInterpLine sqrtW idF c2A c2B 0).length :=
  ⟨by norm_num [sqrtW],
   (draw_interp_line_spec sqrtW idF c2A c2B 0).2.1 (by norm_num [sqrtW])⟩

/-- C2 counterexample: for a pair of endpoint particles at the same position
the distance is 0, the computed segment count is ceil(0/5) = 0, and zero
segments are emitted, refuting the claimed unconditional n ≥ 1. -/
theorem draw_interp_line_zero_segments :
    drawInterpLine zeroF idF c2A c2A 0 = [] ∧
    ¬ 1 ≤ (drawInterpLine zeroF idF c2A c2A 0).length := by
  have h : drawInterpLine zeroF idF c2A c2A 0 = [] := by
    norm_num [drawInterpLine, interpCount, zeroF, c2A, Vec2.sub, MAX_SEGMENT_LEN]
    rfl
  rw [h]
  exact ⟨rfl, by norm_num⟩

/-- The spec's concrete interpolation check, proved by evaluation: endpoints
(0,0) and (10,0) with MAX_SEGMENT_LEN = 5 give exactly 2 segments; the first
ends at (5,0) carrying A's color, and the second carries the midpoint of the
two endpoint colors. -/
theorem draw_interp_line_midpoint_example :
    (drawInterpLine sqrtW idF c2A c2B 0).length = 2 ∧
    (drawInterpLine sqrtW idF c2A c2B 0)[0]? =
      some (Prim.line ⟨0, 0⟩ ⟨5, 0⟩ (c2A.color idF 0)) ∧
    (drawInterpLine sqrtW idF c2A c2B 0)[1]? =
      some (Prim.line ⟨5, 0⟩ ⟨10, 0⟩
        ⟨((c2A.color idF 0).r + (c2B.color idF 0).r) / 2,
         ((c2A.color idF 0).g + (c2B.color idF 0).g) / 2,
         ((c2A.color idF 0).b + (c2B.color idF 0).b) / 2, 1⟩) := by
  refine ⟨?_, ?_, ?_⟩ <;>
    norm_num [drawInterpLine, interpCount, interpPosDelta, interpColorDelta,
      interpSegs, stepColor, sqrtW, idF, c2A, c2B, Star'.color, Vec2.sub,
      Vec2.divQ, Vec2.add, MAX_SEGMENT_LEN, R_SCALE, G_SCALE, B_SCALE,
      STAR_TIME_COLOR_SCALE]

-- C4 ------------------------------------------------------------------

/-- C4 (amended): exactly one particle is spawned every 7 ticks of simulated
time — 7 being the least tick count whose duration (7 x 16_666_666 ns =
116_666_662 ns) reaches the 100 ms spawn delay, since the truncated tick is
slightly short of 1/60 s and each spawn resets last_star to the spawn tick —
so after k ticks from the initial state exactly k / 7 particles have been
spawned.  This is NOT floor(T / spawn_interval): the spawn cadence is about
116.7 ms, not 100 ms, and the deviation grows without bound. -/
theorem spawn_cadence_spec (cosf sinf sqrtf : ℚ → ℚ) (r : Rect) (k : ℕ) :
    (MyGame.ticks cosf sinf sqrtf r k initGame).spawned = k / 7 :=
  (ticks_spawn_invariant cosf sinf sqrtf r k).2.2

/-- C4 counterexample: after 100 ticks the simulated time is 1_666_666_600 ns,
whose quotient by the 100 ms spawn interval is 16, but only 14 particles have
been spawned — off by 2, outside any one-tick rounding tolerance. -/
theorem spawn_count_deviates :
    (MyGame.ticks zeroF zeroF zeroF emptyRect 100 initGame).spawned = 14 ∧
    (MyGame.ticks zeroF zeroF zeroF emptyRect 100 initGame).now / STAR_DELAY_NS = 16 ∧
    ¬ ((MyGame.ticks zeroF zeroF zeroF emptyRect 100 initGame).now / STAR_DELAY_NS ≤
        (MyGame.ticks zeroF zeroF zeroF emptyRect 100 initGame).spawned + 1) := by
  rcases ticks_spawn_invariant zeroF zeroF zeroF emptyRect 100 with ⟨hnow, _, hsp⟩
  rw [TICK_DURATION_NS_eq] at hnow
  refine ⟨by rw [hsp], ?_, ?_⟩
  · rw [hnow]
    norm_num [STAR_DELAY_NS]
  · intro hcon
    rw [hsp, hnow] at hcon
    norm_num [STAR_DELAY_NS] at hcon

-- C5 ------------------------------------------------------------------

/-- C5 (amended): the spawn angle and the angular velocity remain within the
CLOSED interval [0, 2π] after arbitrarily many ticks, maintained by
wraparound subtraction (never a modulo); because the wraparound test is
strict (`> 2π`), the endpoint 2π itself is attainable, so the claimed
half-open interval [0, 2π) is not an invariant. -/
theorem angle_bounds_spec (cosf sinf sqrtf : ℚ → ℚ) (r : Rect) (k : ℕ) :
    0 ≤ (MyGame.ticks cosf sinf sqrtf r k initGame).angle ∧
    (MyGame.ticks cosf sinf sqrtf r k initGame).angle ≤ 2 * PI32 ∧
    0 ≤ (MyGame.ticks cosf sinf sqrtf r k initGame).angle_delta ∧
    (MyGame.ticks cosf sinf sqrtf r k initGame).angle_delta ≤ 2 * PI32 :=
  ticks_angle_bounds cosf sinf sqrtf r k

/-- C5 counterexample: the angular velocity accumulates by exactly 1/6000 per
tick and wraps only when strictly above 2π, so at tick
n = 4_941_298_125 — where n/6000 is exactly the 131072-nd multiple of the
wrap threshold — the value lands exactly ON 2π and is not wrapped: the
angular velocity equals 2π, which is outside [0, 2π). -/
theorem angle_delta_hits_two_pi :
    (MyGame.ticks zeroF zeroF zeroF screenRect 4941298125 initGame).angle_delta =
      2 * PI32 ∧
    ¬ ((MyGame.ticks zeroF zeroF zeroF screenRect 4941298125 initGame).angle_delta <
        2 * PI32) := by
  have h : (MyGame.ticks zeroF zeroF zeroF screenRect 4941298125 initGame).angle_delta =
      deltaIter 0 4941298125 := by
    rw [ticks_angle_delta]
    rfl
  rw [h, deltaIter_at_boundary]
  exact ⟨rfl, lt_irrefl _⟩

-- C10 -----------------------------------------------------------------

/-- C10 (amended): if every particle coordinate is finite (non-NaN), every
squared-distance comparison made by the nearest-neighbor sort is defined and
the unwrap's panic branch is unreachable (the refined renderer never returns
`none`); a NaN squared distance makes line-mode rendering panic exactly when
the sort performs a comparison involving it, which requires the affected
particle to have at least two later-spawned candidates — with a single
candidate the one-element sort performs no comparison and rendering completes
despite the NaN. -/
theorem nan_sort_panic_spec (p q : Bool) (stars : List Star10) :
    ((∀ s ∈ stars, s.isFinite = true) → lineRender10 p q stars ≠ none) ∧
    (∀ (ix : ℕ) (s : Star10), stars[ix]? = some s →
      2 ≤ (stars.drop (ix + 1)).length →
      (∃ o ∈ stars.drop (ix + 1), Star10.dSqr s o = EF.nan) →
      lineRender10 p q stars = none) := by
  constructor
  · intro hfin
    have hstep : ∀ (ix : ℕ) (s : Star10), (ix, s) ∈ stars.enum →
        ¬ stars.length ≤ ix + 1 →
        ∃ v, nearestSel10 p q s (stars.drop (ix + 1)) = some v := by
      intro ix s hmem _
      have hsmem : s ∈ stars :=
        List.getElem?_mem (List.mk_mem_enum_iff_getElem?.mp hmem)
      have hcmp : ∀ x ∈ stars.drop (ix + 1), ∀ y ∈ stars.drop (ix + 1),
          cmp10 s x y ≠ none := by
        intro x hx y hy
        exact cmp10_ne_none s x y
          (Star10.dSqr_fin s x (hfin s hsmem) (hfin x (List.drop_subset _ _ hx)))
          (Star10.dSqr_fin s y (hfin s hsmem) (hfin y (List.drop_subset _ _ hy)))
      rcases sortOpt_isSome (cmp10 s) (stars.drop (ix + 1)) hcmp with ⟨m, hm⟩
      have hv : nearestSel10 p q s (stars.drop (ix + 1)) =
          some ((match q, m[1]? with
                 | true, some o2 => [(s, o2)]
                 | _, _ => []) ++
                (match p, m[0]? with
                 | true, some o1 => [(s, o1)]
                 | _, _ => [])) := by
        simp only [nearestSel10]
        rw [hm]
        rfl
      exact ⟨_, hv⟩
    rcases lineRenderAux_isSome p q stars stars.enum hstep with ⟨w, hw⟩
    intro hcon
    rw [lineRender10, hw] at hcon
    exact Option.noConfusion hcon
  · intro ix s hix hlen hex
    rcases hex with ⟨o, ho, hnan⟩
    have hng : ¬ stars.length ≤ ix + 1 := by
      rw [List.length_drop] at hlen
      omega
    have hsort : sortOpt (cmp10 s) (stars.drop (ix + 1)) = none :=
      sortOpt_poison (cmp10 s) o (dSqr_nan_poisons s o hnan) _ hlen ho
    have hsel : nearestSel10 p q s (stars.drop (ix + 1)) = none := by
      simp [nearestSel10, hsort]
    exact lineRenderAux_none p q stars stars.enum ix s
      (List.mk_mem_enum_iff_getElem?.mpr hix) hng hsel

/-- A star with a NaN x coordinate and two finite stars, for C10. -/
def nanStar : Star10 := ⟨EF.nan, EF.fin 0⟩

def finStarA : Star10 := ⟨EF.fin 0, EF.fin 0⟩

def finStarB : Star10 := ⟨EF.fin 3, EF.fin 0⟩

/-- Witness for C10 at concrete inputs: an all-finite pair renders without
panic, and a NaN star with two later candidates panics the render. -/
theorem nan_sort_panic_spec_witness :
    lineRender10 true false [finStarA, finStarB] ≠ none ∧
    lineRender10 true false [nanStar, finStarA, finStarB] = none :=
  ⟨(nan_sort_panic_spec true false [finStarA, finStarB]).1 (by decide),
   (nan_sort_panic_spec true false [nanStar, finStarA, finStarB]).2 0 nanStar rfl
     (by decide) ⟨finStarA, by decide, by decide⟩⟩

/-- C10 counterexample: with exactly two particles, one having a NaN
coordinate, the squared distance between them is NaN, yet line-mode rendering
completes without panicking — the one-candidate sort performs no comparison —
refuting the claim that any NaN squared distance panics the render. -/
theorem nan_distance_no_panic :
    Star10.dSqr nanStar finStarA = EF.nan ∧
    lineRender10 true false [nanStar, finStarA] = some [(nanStar, finStarA)] := by decide
